import Mathlib

/-!
Shallow embedding of the px-nesemu core (src/main.rs): a cycle-accurate
co-scheduler driving a 6502-style CPU stepper and a video-clock (PPU)
stepper in lockstep.

The Rust source uses generators (`yield` once per elapsed hardware
cycle).  Each generator is embedded as an explicit state machine: one
application of its step function corresponds to one `resume` up to the
next `yield`.  The CPU generator's resumption point is the `CpuMicro`
value stored in the machine state; the PPU generator's resumption point
is the pair of nested loop counters (`ppuCycle`, `ppuFrame`).  Interior
mutability (`Cell`) in the source becomes ordinary functional record
update.  Rust panics (`unimplemented!`) abort the whole run, so fallible
steps return `Except Err`.  The `raises` field is a ghost counter,
incremented exactly where the source executes `self.cpu.nmi.set(true)`
inside `run_ppu`; it affects no other behaviour.
-/

deriving instance DecidableEq for Except

namespace PxNes

/-- The two fatal conditions of the core (`unimplemented!` panics in the
source): bus access outside any window, and an opcode with no
micro-step sequence. -/
inductive Err where
  | unmappedRead (addr : Nat)
  | unmappedWrite (addr : Nat)
  | unimplementedOpcode (op : Nat)
deriving DecidableEq

/-- Resumption point of the `run_cpu` generator: `boundary` is the top
of the instruction loop (NMI check + opcode fetch happen on the next
resume); `fetched op` is just after the fetch `yield`; the remaining
constructors are the mid-instruction suspend points of the three-cycle
opcodes, carrying the local variable that survives the `yield`
(`addr` for the zero-page opcodes, the target low byte for `JMP`). -/
inductive CpuMicro where
  | boundary
  | fetched (opcode : Nat)
  | stx2 (addr : Nat)
  | ldaZp2 (addr : Nat)
  | jmp2 (lo : Nat)
deriving DecidableEq

/-- The register file (struct `Cpu` in the source).  8/16-bit fields are
Nat with explicit wrap (`% 256`, `% 65536`) where the source uses
`wrapping_add` or u8/u16 assignment. -/
structure Cpu where
  pc : Nat
  a : Nat
  x : Nat
  y : Nat
  s : Nat
  p : Nat
  nmi : Bool
deriving DecidableEq

/-- The machine aggregate (struct `Nes`) together with the generator
resumption state of `run_cpu` (`micro`) and of `run_ppu` (`ppuCycle`,
`ppuFrame`), plus the ghost raise counter. -/
structure Nes where
  cpu : Cpu
  ram : List Nat
  rom : List Nat
  micro : CpuMicro
  ppuCycle : Nat
  ppuFrame : Nat
  raises : Nat
deriving DecidableEq

/-- `Nes::read_u8`: RAM window `0x0000..=0x07FF` mirrored modulo
`ram.len()`, PRG-ROM window `0x8000..=0xFFFF` mirrored modulo
`rom.len()`, anything else panics (`unimplemented!`). -/
def read_u8 (n : Nes) (addr : Nat) : Except Err Nat :=
  if addr < 0x0800 then
    .ok (n.ram.getD (addr % n.ram.length) 0)
  else if 0x8000 ≤ addr ∧ addr < 0x10000 then
    .ok (n.rom.getD ((addr - 0x8000) % n.rom.length) 0)
  else
    .error (.unmappedRead addr)

/-- `Nes::write_u8`: RAM window mutates in place, PRG-ROM window ignores
the write, anything else panics (`unimplemented!`). -/
def write_u8 (n : Nes) (addr v : Nat) : Except Err Nes :=
  if addr < 0x0800 then
    .ok { n with ram := n.ram.set (addr % n.ram.length) v }
  else if 0x8000 ≤ addr ∧ addr < 0x10000 then
    .ok n
  else
    .error (.unmappedWrite addr)

/-- `Nes::read_u16`: little-endian composition of two reads, the address
increment wrapping at the 16-bit boundary. -/
def read_u16 (n : Nes) (addr : Nat) : Except Err Nat :=
  match read_u8 n addr with
  | .error e => .error e
  | .ok lo =>
    match read_u8 n ((addr + 1) % 65536) with
    | .error e => .error e
    | .ok hi => .ok (lo ||| (hi <<< 8))

/-- One resume of the `run_cpu` generator (from the previous `yield` to
the next one).  At an instruction boundary the NMI check runs first: the
source only prints a placeholder and clears the flag (the vector fetch
is a `TODO`), so the embedding clears `nmi` and nothing else. -/
def cpuStep (n : Nes) : Except Err Nes :=
  match n.micro with
  | .boundary =>
    let n1 := if n.cpu.nmi then { n with cpu := { n.cpu with nmi := false } } else n
    match read_u8 n1 n1.cpu.pc with
    | .error e => .error e
    | .ok opcode =>
      .ok { n1 with cpu := { n1.cpu with pc := (n1.cpu.pc + 1) % 65536 },
                    micro := .fetched opcode }
  | .fetched opcode =>
    match opcode with
    | 0xA9 =>  -- LDA immediate
      match read_u8 n n.cpu.pc with
      | .error e => .error e
      | .ok v =>
        .ok { n with cpu := { n.cpu with pc := (n.cpu.pc + 1) % 65536, a := v },
                     micro := .boundary }
    | 0x69 =>  -- ADC immediate (wrapping_add on u8)
      match read_u8 n n.cpu.pc with
      | .error e => .error e
      | .ok v =>
        .ok { n with cpu := { n.cpu with pc := (n.cpu.pc + 1) % 65536,
                                         a := (n.cpu.a + v) % 256 },
                     micro := .boundary }
    | 0xAA =>  -- TAX (with the hardware's garbage read at PC)
      match read_u8 n n.cpu.pc with
      | .error e => .error e
      | .ok _garbage =>
        .ok { n with cpu := { n.cpu with x := n.cpu.a }, micro := .boundary }
    | 0x86 =>  -- STX zero page, cycle 2: read operand, zero-extend to u16
      match read_u8 n n.cpu.pc with
      | .error e => .error e
      | .ok addr_lo =>
        .ok { n with cpu := { n.cpu with pc := (n.cpu.pc + 1) % 65536 },
                     micro := .stx2 addr_lo }
    | 0xA5 =>  -- LDA zero page, cycle 2: read operand, zero-extend to u16
      match read_u8 n n.cpu.pc with
      | .error e => .error e
      | .ok addr_lo =>
        .ok { n with cpu := { n.cpu with pc := (n.cpu.pc + 1) % 65536 },
                     micro := .ldaZp2 addr_lo }
    | 0x4C =>  -- JMP absolute, cycle 2: read target low byte
      match read_u8 n n.cpu.pc with
      | .error e => .error e
      | .ok target_lo =>
        .ok { n with cpu := { n.cpu with pc := (n.cpu.pc + 1) % 65536 },
                     micro := .jmp2 target_lo }
    | op => .error (.unimplementedOpcode op)
  | .stx2 addr =>  -- STX cycle 3: write X to the zero-page address
    match write_u8 n addr n.cpu.x with
    | .error e => .error e
    | .ok n1 => .ok { n1 with micro := .boundary }
  | .ldaZp2 addr =>  -- LDA zero page cycle 3: read the value into A
    match read_u8 n addr with
    | .error e => .error e
    | .ok v => .ok { n with cpu := { n.cpu with a := v }, micro := .boundary }
  | .jmp2 lo =>  -- JMP cycle 3: read target high byte, set PC
    match read_u8 n n.cpu.pc with
    | .error e => .error e
    | .ok hi =>
      .ok { n with cpu := { n.cpu with pc := lo ||| (hi <<< 8) },
                   micro := .boundary }

/-- One resume of the `run_ppu` generator: run the body for the current
dot (`if cycle == 1 { nmi.set(true) }`, counted by the ghost `raises`),
then advance the nested dot/frame counters to the next `yield`. -/
def ppuStep (n : Nes) : Nes :=
  let n1 :=
    if n.ppuCycle = 1 then
      { n with cpu := { n.cpu with nmi := true }, raises := n.raises + 1 }
    else n
  if n1.ppuCycle + 1 = 341 * 262 then
    { n1 with ppuCycle := 0, ppuFrame := n1.ppuFrame + 1 }
  else
    { n1 with ppuCycle := n1.ppuCycle + 1 }

/-- `for _ in 0..k { resume ppu }` (the PPU generator never completes). -/
def ppuSteps : Nat → Nes → Nes
  | 0, n => n
  | k + 1, n => ppuSteps k (ppuStep n)

/-- One master cycle of `Nes::run`: resume the CPU generator once (a
panic there aborts the run), then resume the PPU generator three times,
then `yield` — so one application of `masterStep` is exactly one suspend
of the co-scheduler to its caller. -/
def masterStep (n : Nes) : Except Err Nes :=
  match cpuStep n with
  | .error e => .error e
  | .ok n1 => .ok (ppuSteps 3 n1)

/-- Drive the co-scheduler for `k` master cycles (the `main` loop,
resuming `run` repeatedly); an error aborts the remaining cycles. -/
def runN : Nat → Nes → Except Err Nes
  | 0, n => .ok n
  | k + 1, n =>
    match masterStep n with
    | .error e => .error e
    | .ok n1 => runN k n1

/-- The state reached after `k` successful master cycles (falls back to
the start state if the run aborted; used only to name concrete reachable
states in closed statements). -/
def runState (k : Nat) (n : Nes) : Nes :=
  match runN k n with
  | .ok n1 => n1
  | .error _ => n

/-- `Nes::from_rom`: PC from the little-endian reset vector at ROM
offsets 0x3FFC/0x3FFD, power-up register values, zeroed RAM, generators
at their initial resumption points. -/
def from_rom (rom : List Nat) : Nes :=
  let lo := rom.getD 0x3FFC 0
  let hi := rom.getD 0x3FFD 0
  { cpu := { pc := lo ||| (hi <<< 8), a := 0, x := 0, y := 0,
             s := 0xFD, p := 0x34, nmi := false },
    ram := List.replicate 0x0800 0,
    rom := rom,
    micro := .boundary,
    ppuCycle := 0, ppuFrame := 0, raises := 0 }

/-- The interrupt-vector bytes of `sample_rom`. -/
def interrupt_vectors : List Nat := [0x00, 0x00, 0x00, 0x80, 0x00, 0x00]

/-- The program bytes of `sample_rom`. -/
def program : List Nat :=
  [0xA9, 0x05,
   0x69, 0x06,
   0xAA,
   0x86, 0x01,
   0xA5, 0x01,
   0x4C, 0x09, 0x80]

/-- `sample_rom`: the program bytes, padded with zeros to 16 KiB minus
the vector bytes, followed by the interrupt vectors (the iterator chain
`program.chain(repeat 0).take(0x4000 - 6).chain(vectors)`). -/
def sample_rom : List Nat :=
  (program ++ List.replicate 0x4000 0).take (0x4000 - interrupt_vectors.length)
    ++ interrupt_vectors

/-- The number of dots with frame-local index 1 among the first `d` dots
of a run that starts at dot 0 of frame 0 (341*262 dots per frame); used
to state where and how often `run_ppu` raises the interrupt flag. -/
def rcount (d : Nat) : Nat :=
  (List.range d).countP fun j => j % (341 * 262) == 1

/-- Byte bound carried by the mid-instruction resumption points: the
operand latched across a `yield` always came out of `read_u8`, whose
Rust return type is `u8`. -/
def microBytes : CpuMicro → Prop
  | .boundary => True
  | .fetched _ => True
  | .stx2 a => a < 256
  | .ldaZp2 a => a < 256
  | .jmp2 lo => lo < 256

/-- The type-level invariants the Rust source gets for free from `u8`:
every stored RAM/ROM cell and the A/X registers fit in a byte, and any
operand latched in the micro-state does too. -/
def WF (n : Nes) : Prop :=
  (∀ b ∈ n.ram, b < 256) ∧ (∀ b ∈ n.rom, b < 256) ∧
  n.cpu.a < 256 ∧ n.cpu.x < 256 ∧ microBytes n.micro

/-! ### Basic facts about the embedding -/

theorem read_u8_ext {m n : Nes} (h1 : m.ram = n.ram) (h2 : m.rom = n.rom) (a : Nat) :
    read_u8 m a = read_u8 n a := by
  unfold read_u8
  rw [h1, h2]

theorem write_u8_rom {n m : Nes} {a v : Nat} (h : write_u8 n a v = .ok m) :
    m.rom = n.rom := by
  unfold write_u8 at h
  split at h
  · cases h; rfl
  · split at h
    · cases h; rfl
    · cases h

/-- The PPU generator only touches the NMI flag, the ghost raise counter
and its own loop counters. -/
theorem ppuStep_preserves (n : Nes) :
    (ppuStep n).cpu.pc = n.cpu.pc ∧ (ppuStep n).cpu.a = n.cpu.a ∧
    (ppuStep n).cpu.x = n.cpu.x ∧ (ppuStep n).ram = n.ram ∧
    (ppuStep n).rom = n.rom ∧ (ppuStep n).micro = n.micro := by
  unfold ppuStep
  dsimp only
  split <;> split <;> exact ⟨rfl, rfl, rfl, rfl, rfl, rfl⟩

theorem ppuSteps_preserves (k : Nat) (n : Nes) :
    (ppuSteps k n).cpu.pc = n.cpu.pc ∧ (ppuSteps k n).cpu.a = n.cpu.a ∧
    (ppuSteps k n).cpu.x = n.cpu.x ∧ (ppuSteps k n).ram = n.ram ∧
    (ppuSteps k n).rom = n.rom ∧ (ppuSteps k n).micro = n.micro := by
  induction k generalizing n with
  | zero => exact ⟨rfl, rfl, rfl, rfl, rfl, rfl⟩
  | succ k ih =>
    have h1 := ppuStep_preserves n
    have h2 := ih (ppuStep n)
    simp only [ppuSteps]
    exact ⟨h2.1.trans h1.1, h2.2.1.trans h1.2.1, h2.2.2.1.trans h1.2.2.1,
           h2.2.2.2.1.trans h1.2.2.2.1, h2.2.2.2.2.1.trans h1.2.2.2.2.1,
           h2.2.2.2.2.2.trans h1.2.2.2.2.2⟩

theorem cpuStep_rom {n m : Nes} (h : cpuStep n = .ok m) : m.rom = n.rom := by
  unfold cpuStep at h
  split at h
  · -- boundary
    dsimp only at h
    split at h
    · cases h
    · cases h
      split <;> rfl
  · -- fetched opcode
    split at h <;>
      first
        | (split at h <;> cases h <;> try rfl)
        | cases h
  · -- stx2
    split at h
    · cases h
    · rename_i n1 hw
      cases h
      show n1.rom = n.rom
      exact write_u8_rom hw
  · -- ldaZp2
    split at h <;> cases h <;> rfl
  · -- jmp2
    split at h <;> cases h <;> rfl

theorem masterStep_eq {n n1 : Nes} (h : cpuStep n = .ok n1) :
    masterStep n = .ok (ppuSteps 3 n1) := by
  unfold masterStep
  rw [h]

theorem masterStep_err {n : Nes} {e : Err} (h : cpuStep n = .error e) :
    masterStep n = .error e := by
  unfold masterStep
  rw [h]

theorem masterStep_rom {n m : Nes} (h : masterStep n = .ok m) : m.rom = n.rom := by
  unfold masterStep at h
  split at h
  · cases h
  · rename_i n1 hc
    cases h
    exact ((ppuSteps_preserves 3 n1).2.2.2.2.1).trans (cpuStep_rom hc)

theorem runN_zero (n : Nes) : runN 0 n = .ok n := rfl

theorem runN_succ (k : Nat) (n : Nes) :
    runN (k + 1) n =
      match masterStep n with
      | .error e => .error e
      | .ok n1 => runN k n1 := rfl

theorem runN_rom {k : Nat} {n m : Nes} (h : runN k n = .ok m) : m.rom = n.rom := by
  induction k generalizing n with
  | zero => cases h; rfl
  | succ k ih =>
    rw [runN_succ] at h
    split at h
    · cases h
    · rename_i n1 hm
      exact (ih h).trans (masterStep_rom hm)

theorem runN_add (a b : Nat) (n : Nes) :
    runN (a + b) n =
      match runN a n with
      | .error e => .error e
      | .ok m => runN b m := by
  induction a generalizing n with
  | zero => simp [runN_zero, runN]
  | succ a ih =>
    have h1 : a + 1 + b = (a + b) + 1 := by omega
    rw [h1, runN_succ, runN_succ]
    split <;> simp [ih]

theorem runN_runState {k : Nat} {n m : Nes} (h : runN k n = .ok m) :
    runState k n = m := by
  unfold runState
  rw [h]

/-! ### Contents of the sample ROM -/

theorem program_length : program.length = 12 := rfl

theorem interrupt_vectors_length : interrupt_vectors.length = 6 := rfl

theorem sample_rom_eq :
    sample_rom = program ++ (List.replicate 16366 0 ++ interrupt_vectors) := by
  unfold sample_rom
  rw [interrupt_vectors_length, List.take_append_eq_append_take,
      List.take_of_length_le (show program.length ≤ 0x4000 - 6 by
        rw [program_length]; norm_num),
      program_length, List.take_replicate]
  norm_num

theorem sample_rom_length : sample_rom.length = 16384 := by
  rw [sample_rom_eq]
  rw [List.length_append, List.length_append, List.length_replicate,
      program_length, interrupt_vectors_length]

theorem sample_rom_getD_prog {k : Nat} (hk : k < 12) :
    sample_rom.getD k 0 = program.getD k 0 := by
  rw [sample_rom_eq, List.getD_append _ _ _ _ (by rw [program_length]; omega)]

theorem sample_rom_getD_vec {j : Nat} (hj : j < 6) :
    sample_rom.getD (16378 + j) 0 = interrupt_vectors.getD j 0 := by
  rw [sample_rom_eq,
      List.getD_append_right _ _ _ _ (by rw [program_length]; omega),
      program_length,
      List.getD_append_right _ _ _ _ (by simp only [List.length_replicate]; omega)]
  simp only [List.length_replicate]
  have h : 16378 + j - 12 - 16366 = j := by omega
  rw [h]

theorem from_rom_sample :
    from_rom sample_rom =
      { cpu := { pc := 0x8000, a := 0, x := 0, y := 0, s := 0xFD, p := 0x34,
                 nmi := false },
        ram := List.replicate 0x0800 0, rom := sample_rom,
        micro := .boundary, ppuCycle := 0, ppuFrame := 0, raises := 0 } := by
  have h1 : sample_rom.getD 0x3FFC 0 = 0 := by
    have h := sample_rom_getD_vec (show 2 < 6 by norm_num)
    rw [show 16378 + 2 = 0x3FFC from by norm_num] at h
    rw [h]
    rfl
  have h2 : sample_rom.getD 0x3FFD 0 = 0x80 := by
    have h := sample_rom_getD_vec (show 3 < 6 by norm_num)
    rw [show 16378 + 3 = 0x3FFD from by norm_num] at h
    rw [h]
    rfl
  unfold from_rom
  dsimp only
  rw [h1, h2]
  norm_num [Nat.shiftLeft_eq]

/-! ### Reading and writing through the bus -/

theorem read_ram_window (s : Nes) {a : Nat} (ha : a < 0x0800) :
    read_u8 s a = .ok (s.ram.getD (a % s.ram.length) 0) := by
  unfold read_u8
  rw [if_pos ha]

theorem write_ram_window (s : Nes) {a : Nat} (v : Nat) (ha : a < 0x0800) :
    write_u8 s a v = .ok { s with ram := s.ram.set (a % s.ram.length) v } := by
  unfold write_u8
  rw [if_pos ha]

theorem write_rom_window (s : Nes) {a : Nat} (v : Nat) (h1 : 0x8000 ≤ a)
    (h2 : a < 0x10000) : write_u8 s a v = .ok s := by
  unfold write_u8
  rw [if_neg (by omega), if_pos ⟨h1, h2⟩]

theorem read_rom_sample {s : Nes} (hrom : s.rom = sample_rom) {a : Nat}
    (h1 : 0x8000 ≤ a) (h2 : a < 0x10000) :
    read_u8 s a = .ok (sample_rom.getD ((a - 0x8000) % 16384) 0) := by
  unfold read_u8
  rw [if_neg (by omega), if_pos ⟨h1, h2⟩, hrom, sample_rom_length]

theorem read_prog_sample {s : Nes} (hrom : s.rom = sample_rom) {a : Nat}
    (h1 : 0x8000 ≤ a) (h2 : a < 0x8000 + 12) :
    read_u8 s a = .ok (program.getD (a - 0x8000) 0) := by
  rw [read_rom_sample hrom h1 (by omega),
      Nat.mod_eq_of_lt (by omega),
      sample_rom_getD_prog (by omega)]

/-! ### Characterisation of the CPU micro-steps -/

theorem read_u8_mk (c : Cpu) (ram rom : List Nat) (mi : CpuMicro)
    (cy fr rs : Nat) (a : Nat) :
    read_u8 ⟨c, ram, rom, mi, cy, fr, rs⟩ a =
      if a < 0x0800 then .ok (ram.getD (a % ram.length) 0)
      else if 0x8000 ≤ a ∧ a < 0x10000 then
        .ok (rom.getD ((a - 0x8000) % rom.length) 0)
      else .error (.unmappedRead a) := rfl

theorem cpuStep_boundary {n : Nes} (hmi : n.micro = .boundary) {op : Nat}
    (hop : read_u8 n n.cpu.pc = .ok op) :
    cpuStep n = .ok { n with cpu := { n.cpu with pc := (n.cpu.pc + 1) % 65536,
                                                 nmi := false },
                             micro := .fetched op } := by
  obtain ⟨c, ram, rom, mi, cy, fr, rs⟩ := n
  dsimp only at hmi hop ⊢
  subst hmi
  unfold cpuStep
  dsimp only
  by_cases hn : c.nmi
  · rw [if_pos hn]
    rw [read_u8_mk] at hop ⊢
    rw [hop]
  · rw [if_neg hn]
    rw [hop]
    have hb : c.nmi = false := by
      cases hcn : c.nmi
      · rfl
      · exact absurd hcn hn
    rw [hb]

theorem cpuStep_lda_imm {n : Nes} (hmi : n.micro = .fetched 0xA9) {v : Nat}
    (hv : read_u8 n n.cpu.pc = .ok v) :
    cpuStep n = .ok { n with cpu := { n.cpu with pc := (n.cpu.pc + 1) % 65536,
                                                 a := v },
                             micro := .boundary } := by
  obtain ⟨c, ram, rom, mi, cy, fr, rs⟩ := n
  dsimp only at hmi hv ⊢
  subst hmi
  unfold cpuStep
  dsimp only
  rw [hv]

theorem cpuStep_adc_imm {n : Nes} (hmi : n.micro = .fetched 0x69) {v : Nat}
    (hv : read_u8 n n.cpu.pc = .ok v) :
    cpuStep n = .ok { n with cpu := { n.cpu with pc := (n.cpu.pc + 1) % 65536,
                                                 a := (n.cpu.a + v) % 256 },
                             micro := .boundary } := by
  obtain ⟨c, ram, rom, mi, cy, fr, rs⟩ := n
  dsimp only at hmi hv ⊢
  subst hmi
  unfold cpuStep
  dsimp only
  rw [hv]

theorem cpuStep_tax {n : Nes} (hmi : n.micro = .fetched 0xAA) {g : Nat}
    (hg : read_u8 n n.cpu.pc = .ok g) :
    cpuStep n = .ok { n with cpu := { n.cpu with x := n.cpu.a },
                             micro := .boundary } := by
  obtain ⟨c, ram, rom, mi, cy, fr, rs⟩ := n
  dsimp only at hmi hg ⊢
  subst hmi
  unfold cpuStep
  dsimp only
  rw [hg]

theorem cpuStep_stx_op {n : Nes} (hmi : n.micro = .fetched 0x86) {z : Nat}
    (hz : read_u8 n n.cpu.pc = .ok z) :
    cpuStep n = .ok { n with cpu := { n.cpu with pc := (n.cpu.pc + 1) % 65536 },
                             micro := .stx2 z } := by
  obtain ⟨c, ram, rom, mi, cy, fr, rs⟩ := n
  dsimp only at hmi hz ⊢
  subst hmi
  unfold cpuStep
  dsimp only
  rw [hz]

theorem cpuStep_ldaZp_op {n : Nes} (hmi : n.micro = .fetched 0xA5) {z : Nat}
    (hz : read_u8 n n.cpu.pc = .ok z) :
    cpuStep n = .ok { n with cpu := { n.cpu with pc := (n.cpu.pc + 1) % 65536 },
                             micro := .ldaZp2 z } := by
  obtain ⟨c, ram, rom, mi, cy, fr, rs⟩ := n
  dsimp only at hmi hz ⊢
  subst hmi
  unfold cpuStep
  dsimp only
  rw [hz]

theorem cpuStep_jmp_op {n : Nes} (hmi : n.micro = .fetched 0x4C) {z : Nat}
    (hz : read_u8 n n.cpu.pc = .ok z) :
    cpuStep n = .ok { n with cpu := { n.cpu with pc := (n.cpu.pc + 1) % 65536 },
                             micro := .jmp2 z } := by
  obtain ⟨c, ram, rom, mi, cy, fr, rs⟩ := n
  dsimp only at hmi hz ⊢
  subst hmi
  unfold cpuStep
  dsimp only
  rw [hz]

theorem cpuStep_stx_wr {n : Nes} {z : Nat} (hmi : n.micro = .stx2 z) {m : Nes}
    (hw : write_u8 n z n.cpu.x = .ok m) :
    cpuStep n = .ok { m with micro := .boundary } := by
  obtain ⟨c, ram, rom, mi, cy, fr, rs⟩ := n
  dsimp only at hmi hw ⊢
  subst hmi
  unfold cpuStep
  dsimp only
  rw [hw]

theorem cpuStep_ldaZp_rd {n : Nes} {z : Nat} (hmi : n.micro = .ldaZp2 z)
    {v : Nat} (hv : read_u8 n z = .ok v) :
    cpuStep n = .ok { n with cpu := { n.cpu with a := v },
                             micro := .boundary } := by
  obtain ⟨c, ram, rom, mi, cy, fr, rs⟩ := n
  dsimp only at hmi hv ⊢
  subst hmi
  unfold cpuStep
  dsimp only
  rw [hv]

theorem cpuStep_jmp_hi {n : Nes} {lo : Nat} (hmi : n.micro = .jmp2 lo)
    {hi : Nat} (hv : read_u8 n n.cpu.pc = .ok hi) :
    cpuStep n = .ok { n with cpu := { n.cpu with pc := lo ||| (hi <<< 8) },
                             micro := .boundary } := by
  obtain ⟨c, ram, rom, mi, cy, fr, rs⟩ := n
  dsimp only at hmi hv ⊢
  subst hmi
  unfold cpuStep
  dsimp only
  rw [hv]

/-! ### Dot counting in the PPU -/

theorem rcount_zero : rcount 0 = 0 := rfl

theorem rcount_succ (d : Nat) :
    rcount (d + 1) = rcount d + (if d % (341 * 262) = 1 then 1 else 0) := by
  unfold rcount
  rw [List.range_succ, List.countP_append]
  simp [List.countP_cons]

theorem write_u8_fields {n m : Nes} {a v : Nat} (h : write_u8 n a v = .ok m) :
    m.cpu = n.cpu ∧ m.rom = n.rom ∧ m.micro = n.micro ∧
    m.ppuCycle = n.ppuCycle ∧ m.ppuFrame = n.ppuFrame ∧ m.raises = n.raises := by
  unfold write_u8 at h
  split at h
  · cases h
    exact ⟨rfl, rfl, rfl, rfl, rfl, rfl⟩
  · split at h
    · cases h
      exact ⟨rfl, rfl, rfl, rfl, rfl, rfl⟩
    · cases h

/-- The CPU generator never touches the PPU loop counters or the ghost
raise counter. -/
theorem cpuStep_ppu_fields {n m : Nes} (h : cpuStep n = .ok m) :
    m.ppuCycle = n.ppuCycle ∧ m.ppuFrame = n.ppuFrame ∧ m.raises = n.raises := by
  unfold cpuStep at h
  split at h
  · dsimp only at h
    split at h
    · cases h
    · cases h
      split <;> exact ⟨rfl, rfl, rfl⟩
  · split at h <;>
      first
        | (split at h <;> cases h <;> exact ⟨rfl, rfl, rfl⟩)
        | cases h
  · split at h
    · cases h
    · rename_i n1 hw
      cases h
      have hf := write_u8_fields hw
      exact ⟨hf.2.2.2.1, hf.2.2.2.2.1, hf.2.2.2.2.2⟩
  · split at h <;> cases h <;> exact ⟨rfl, rfl, rfl⟩
  · split at h <;> cases h <;> exact ⟨rfl, rfl, rfl⟩

/-- One PPU dot, seen through an absolute dot index `d`: the wrap of the
nested counter is the successor modulo one frame, and the flag is raised
(and counted) exactly at frame-local index 1. -/
theorem ppuStep_dot {n : Nes} {d : Nat} (hc : n.ppuCycle = d % (341 * 262)) :
    (ppuStep n).ppuCycle = (d + 1) % (341 * 262) ∧
    (ppuStep n).raises = n.raises + (if d % (341 * 262) = 1 then 1 else 0) := by
  unfold ppuStep
  dsimp only
  by_cases h1 : n.ppuCycle = 1
  · have hd1 : d % (341 * 262) = 1 := by rw [← hc]; exact h1
    rw [if_pos h1]
    dsimp only
    rw [if_neg (show ¬ (n.ppuCycle + 1 = 341 * 262) by omega),
        if_pos hd1]
    dsimp only
    refine ⟨by omega, rfl⟩
  · have hd1 : ¬ (d % (341 * 262) = 1) := fun hh => h1 (by rw [hc, hh])
    rw [if_neg h1, if_neg hd1]
    by_cases h2 : n.ppuCycle + 1 = 341 * 262
    · rw [if_pos h2]
      dsimp only
      refine ⟨by omega, by omega⟩
    · rw [if_neg h2]
      dsimp only
      refine ⟨by omega, by omega⟩

theorem masterStep_dots {n m : Nes} {d : Nat} (h : masterStep n = .ok m)
    (hc : n.ppuCycle = d % (341 * 262)) (hr : n.raises = rcount d) :
    m.ppuCycle = (d + 3) % (341 * 262) ∧ m.raises = rcount (d + 3) := by
  unfold masterStep at h
  split at h
  · cases h
  · rename_i n1 hcs
    cases h
    have hp := cpuStep_ppu_fields hcs
    have hc1 : n1.ppuCycle = d % (341 * 262) := hp.1.trans hc
    have hr1 : n1.raises = rcount d := hp.2.2.trans hr
    have s1 := ppuStep_dot hc1
    have hr2 : (ppuStep n1).raises = rcount (d + 1) := by
      rw [s1.2, hr1, rcount_succ]
    have s2 := ppuStep_dot s1.1
    have hr3 : (ppuStep (ppuStep n1)).raises = rcount (d + 1 + 1) := by
      rw [s2.2, hr2, rcount_succ (d + 1)]
    have s3 := ppuStep_dot s2.1
    have hr4 : (ppuStep (ppuStep (ppuStep n1))).raises = rcount (d + 1 + 1 + 1) := by
      rw [s3.2, hr3, rcount_succ (d + 1 + 1)]
    have e3 : ppuSteps 3 n1 = ppuStep (ppuStep (ppuStep n1)) := rfl
    rw [e3]
    rw [show d + 3 = d + 1 + 1 + 1 from by omega]
    exact ⟨s3.1, hr4⟩

theorem runN_dots (k : Nat) : ∀ {n m : Nes} (d : Nat), runN k n = .ok m →
    n.ppuCycle = d % (341 * 262) → n.raises = rcount d →
    m.ppuCycle = (d + 3 * k) % (341 * 262) ∧ m.raises = rcount (d + 3 * k) := by
  induction k with
  | zero =>
    intro n m d h hc hr
    cases h
    refine ⟨by rw [hc]; omega, ?_⟩
    rw [hr, show d + 3 * 0 = d from by omega]
  | succ k ih =>
    intro n m d h hc hr
    rw [runN_succ] at h
    split at h
    · cases h
    · rename_i n1 hm
      have hd := masterStep_dots hm hc hr
      have hfin := ih (d + 3) h hd.1 hd.2
      rw [show d + 3 + 3 * k = d + 3 * (k + 1) from by omega] at hfin
      exact hfin

theorem rcount_closed (d : Nat) : rcount d = (d + 89340) / 89342 := by
  induction d with
  | zero => rfl
  | succ d ih =>
    rw [rcount_succ, ih, show (341 * 262 : Nat) = 89342 from by norm_num]
    split <;> omega

/-- The machine state after one master cycle on the sample ROM: the CPU
has fetched the first opcode, the PPU has run dots 0, 1, 2 and raised
the interrupt flag once (at dot 1). -/
theorem runN_one_sample :
    runN 1 (from_rom sample_rom) = .ok
      { cpu := { pc := 0x8001, a := 0, x := 0, y := 0, s := 0xFD, p := 0x34,
                 nmi := true },
        ram := List.replicate 0x0800 0, rom := sample_rom,
        micro := .fetched 0xA9, ppuCycle := 3, ppuFrame := 0, raises := 1 } := by
  rw [from_rom_sample]
  have hrd : read_u8
      ({ cpu := { pc := 0x8000, a := 0, x := 0, y := 0, s := 0xFD, p := 0x34,
                  nmi := false },
         ram := List.replicate 0x0800 0, rom := sample_rom,
         micro := .boundary, ppuCycle := 0, ppuFrame := 0, raises := 0 } : Nes)
      0x8000 = .ok 0xA9 := by
    rw [read_prog_sample rfl (by norm_num) (by norm_num)]
    rfl
  have hcs := cpuStep_boundary (show Nes.micro _ = .boundary from rfl) hrd
  have hms := masterStep_eq hcs
  rw [show (1 : Nat) = 0 + 1 from rfl, runN_succ, hms]
  dsimp only
  rw [runN_zero]
  norm_num [ppuSteps, ppuStep]

/-- An error at master cycle `k` is fatal: every longer run returns the
same error (the `main` loop stops driving the generators). -/
theorem runN_error_persists (k j : Nat) : ∀ {n : Nes} {e : Err},
    runN k n = .error e → runN (k + j) n = .error e := by
  induction k with
  | zero =>
    intro n e h
    rw [runN_zero] at h
    cases h
  | succ k ih =>
    intro n e h
    rw [runN_succ] at h
    rw [show k + 1 + j = k + j + 1 from by omega, runN_succ]
    cases hm : masterStep n with
    | error e2 =>
      rw [hm] at h
      cases h
      rfl
    | ok n1 =>
      rw [hm] at h
      exact ih h

/-! ### Claim C1 -/

/-- C1, counterexample: the claim says that running the co-scheduler for
exactly `341*262*N + 1` master cycles raises the pending-interrupt flag
exactly `N` times; at `N = 0` (one master cycle) the flag has in fact
already been raised once, because one master cycle advances the video
clock by three dots and the raise at frame-local dot 1 falls among them. -/
theorem claim_C1_counterexample :
    (∃ s, runN (341 * 262 * 0 + 1) (from_rom sample_rom) = .ok s ∧
          s.raises = 1) ∧
    ¬ (∃ s, runN (341 * 262 * 0 + 1) (from_rom sample_rom) = .ok s ∧
            s.raises = 0) := by
  have hrun : runN (341 * 262 * 0 + 1) (from_rom sample_rom) = .ok
      { cpu := { pc := 0x8001, a := 0, x := 0, y := 0, s := 0xFD, p := 0x34,
                 nmi := true },
        ram := List.replicate 0x0800 0, rom := sample_rom,
        micro := .fetched 0xA9, ppuCycle := 3, ppuFrame := 0, raises := 1 } :=
    runN_one_sample
  refine ⟨⟨_, hrun, rfl⟩, ?_⟩
  rintro ⟨s, hs, hr0⟩
  rw [hrun] at hs
  cases hs
  simp at hr0

/-- C1 (amended): if the co-scheduler completes exactly `341*262*N + 1`
master cycles from the sample-ROM power-up state, the pending-interrupt
flag has been raised exactly `3*N + 1` times (one master cycle is three
dots, not one), and that count is exactly the number of elapsed dots
whose frame-local dot index is 1. -/
theorem claim_C1_amended (N : Nat) {s : Nes}
    (h : runN (341 * 262 * N + 1) (from_rom sample_rom) = .ok s) :
    s.raises = 3 * N + 1 ∧
    s.raises = rcount (3 * (341 * 262 * N + 1)) := by
  rw [from_rom_sample] at h
  have hd := runN_dots (341 * 262 * N + 1) 0 h rfl rfl
  have hr : s.raises = rcount (3 * (341 * 262 * N + 1)) := by
    rw [hd.2, Nat.zero_add]
  refine ⟨?_, hr⟩
  rw [hr, rcount_closed,
      show 3 * (341 * 262 * N + 1) + 89340 = 89342 * (3 * N + 1) + 1 from by
        ring,
      Nat.mul_add_div (by norm_num)]

/-- C1, witness: the amended count at `N = 0`. -/
theorem claim_C1_witness :
    ∃ s, runN (341 * 262 * 0 + 1) (from_rom sample_rom) = .ok s ∧
      s.raises = 3 * 0 + 1 ∧
      s.raises = rcount (3 * (341 * 262 * 0 + 1)) := by
  have hrun : runN (341 * 262 * 0 + 1) (from_rom sample_rom) = .ok
      { cpu := { pc := 0x8001, a := 0, x := 0, y := 0, s := 0xFD, p := 0x34,
                 nmi := true },
        ram := List.replicate 0x0800 0, rom := sample_rom,
        micro := .fetched 0xA9, ppuCycle := 3, ppuFrame := 0, raises := 1 } :=
    runN_one_sample
  exact ⟨_, hrun, claim_C1_amended 0 hrun⟩

/-! ### Claims C6, C7, C8 -/

/-- C6: a bus access fails with the unmapped-address condition exactly
when the (16-bit) address lies in the hole `[0x0800, 0x8000)` between
the RAM window and the ROM window, for reads and writes alike; and an
error at some master cycle makes every longer run return that same
error (the failure is fatal to the run). -/
theorem claim_C6 :
    (∀ (s : Nes) (a v : Nat), a < 0x10000 →
      (((∃ e, read_u8 s a = .error e) ↔ (0x0800 ≤ a ∧ a < 0x8000)) ∧
       ((∃ e, write_u8 s a v = .error e) ↔ (0x0800 ≤ a ∧ a < 0x8000)))) ∧
    (∀ (k j : Nat) (n : Nes) (e : Err),
      runN k n = .error e → runN (k + j) n = .error e) := by
  constructor
  · intro s a v ha
    constructor
    · constructor
      · rintro ⟨e, he⟩
        unfold read_u8 at he
        split at he
        · cases he
        · split at he
          · cases he
          · rename_i h1 h2
            constructor <;> omega
      · intro hw
        refine ⟨.unmappedRead a, ?_⟩
        unfold read_u8
        rw [if_neg (by omega), if_neg (by omega)]
    · constructor
      · rintro ⟨e, he⟩
        unfold write_u8 at he
        split at he
        · cases he
        · split at he
          · cases he
          · rename_i h1 h2
            constructor <;> omega
      · intro hw
        refine ⟨.unmappedWrite a, ?_⟩
        unfold write_u8
        rw [if_neg (by omega), if_neg (by omega)]
  · intro k j n e h
    exact runN_error_persists k j h

/-- C6, witness: address 0x4000 lies in the hole, so a read of it on the
sample machine fails. -/
theorem claim_C6_witness :
    ∃ e, read_u8 (from_rom sample_rom) 0x4000 = .error e :=
  ((claim_C6.1 (from_rom sample_rom) 0x4000 0 (by norm_num)).1).mpr
    ⟨by norm_num, by norm_num⟩

/-- C7: inside the RAM window, an address and its value modulo 0x0800
denote the same cell in every machine state, and a write followed by a
read at the reduced address returns the written byte. -/
theorem claim_C7 (s : Nes) (a v : Nat) (ha : a < 0x0800)
    (hlen : s.ram.length = 0x0800) (hv : v < 256) :
    read_u8 s a = read_u8 s (a % 0x0800) ∧
    (∀ m, write_u8 s a v = .ok m → read_u8 m (a % 0x0800) = .ok v) := by
  have hmod : a % 0x0800 = a := Nat.mod_eq_of_lt ha
  constructor
  · rw [hmod]
  · intro m hw
    rw [write_ram_window s v ha] at hw
    cases hw
    rw [hmod, read_ram_window _ ha]
    have hidx : a % s.ram.length = a := by rw [hlen]; omega
    rw [hidx]
    show Except.ok ((s.ram.set a v).getD (a % (s.ram.set a v).length) 0) = _
    rw [List.length_set, hidx,
        List.getD_eq_getElem _ _ (by rw [List.length_set, hlen]; omega),
        List.getElem_set_self]

/-- C7, witness: write 0xAB to 0x0123 in the fresh sample machine and
read it back. -/
theorem claim_C7_witness :
    read_u8 (from_rom sample_rom) 0x0123
      = read_u8 (from_rom sample_rom) (0x0123 % 0x0800) ∧
    read_u8 { from_rom sample_rom with
              ram := (from_rom sample_rom).ram.set 0x0123 0xAB }
      (0x0123 % 0x0800) = .ok 0xAB := by
  have hc := claim_C7 (from_rom sample_rom) 0x0123 0xAB (by norm_num)
    (by rw [from_rom_sample]; exact List.length_replicate 0x0800 0)
    (by norm_num)
  refine ⟨hc.1, hc.2 _ ?_⟩
  rw [from_rom_sample, write_ram_window _ _ (by norm_num)]
  dsimp only
  rw [List.length_replicate]

/-- C8: a write anywhere in the ROM window returns the machine state
unchanged, so every subsequent read sees exactly what it saw before. -/
theorem claim_C8 (s : Nes) (a v : Nat) (h1 : 0x8000 ≤ a) (h2 : a < 0x10000) :
    write_u8 s a v = .ok s ∧
    (∀ m, write_u8 s a v = .ok m → ∀ b, read_u8 m b = read_u8 s b) := by
  refine ⟨write_rom_window s v h1 h2, ?_⟩
  intro m hw b
  rw [write_rom_window s v h1 h2] at hw
  cases hw
  rfl

/-- C8, witness: writing 7 to 0x9000 on the sample machine is a no-op. -/
theorem claim_C8_witness :
    write_u8 (from_rom sample_rom) 0x9000 7 = .ok (from_rom sample_rom) ∧
    read_u8 (from_rom sample_rom) 0x8000
      = read_u8 (from_rom sample_rom) 0x8000 := by
  have hc := claim_C8 (from_rom sample_rom) 0x9000 7 (by norm_num) (by norm_num)
  exact ⟨hc.1, hc.2 _ hc.1 0x8000⟩

/-! ### Claim C3 -/

/-- C3: in every master cycle the scheduler resumes the CPU stepper
exactly once, and the cycle succeeds exactly when that single CPU
micro-step does; the resulting intermediate state (the CPU step fully
completed) is then advanced by exactly three video-clock dots, nothing
else.  One `.ok` result of `masterStep` is the single suspension of the
scheduler to its caller for that cycle; a CPU fault aborts the cycle
with the same error instead of suspending. -/
theorem claim_C3 (s : Nes) :
    (∀ m, masterStep s = .ok m ↔
      ∃ s1, cpuStep s = .ok s1 ∧ m = ppuStep (ppuStep (ppuStep s1))) ∧
    (∀ e, masterStep s = .error e ↔ cpuStep s = .error e) := by
  constructor
  · intro m
    constructor
    · intro h
      unfold masterStep at h
      split at h
      · cases h
      · rename_i n1 hc
        cases h
        exact ⟨n1, hc, rfl⟩
    · rintro ⟨s1, hc, rfl⟩
      unfold masterStep
      rw [hc]
      rfl
  · intro e
    constructor
    · intro h
      unfold masterStep at h
      split at h
      · rename_i e2 hc
        cases h
        exact hc
      · cases h
    · intro h
      unfold masterStep
      rw [h]

/-- C3, witness: one master cycle on a small machine whose CPU stepper
is mid-way through a zero-page load. -/
theorem claim_C3_witness :
    masterStep { cpu := { pc := 0, a := 0, x := 0, y := 0, s := 0xFD,
                          p := 0x34, nmi := false },
                 ram := [5], rom := [0], micro := .ldaZp2 0,
                 ppuCycle := 0, ppuFrame := 0, raises := 0 }
      = .ok (ppuStep (ppuStep (ppuStep
          { cpu := { pc := 0, a := 5, x := 0, y := 0, s := 0xFD,
                     p := 0x34, nmi := false },
            ram := [5], rom := [0], micro := .boundary,
            ppuCycle := 0, ppuFrame := 0, raises := 0 }))) :=
  ((claim_C3 _).1 _).mpr ⟨_, by decide, rfl⟩

/-! ### Claim C2 -/

/-- C2: the claim says the CPU clears the pending flag *and* transfers
control to the address stored at the interrupt vector.  The code only
clears the flag (the vector fetch is an explicit `TODO` and a println
placeholder).  On the sample machine with the flag set at an instruction
boundary, the vector location $FFFE holds 0x0000, yet after the boundary
step the program counter is 0x8001 (it advanced past the fetched
opcode), not the vector target. -/
theorem claim_C2_bug :
    ∃ m, cpuStep { from_rom sample_rom with
                   cpu := { (from_rom sample_rom).cpu with nmi := true } }
        = .ok m ∧
      m.cpu.nmi = false ∧
      read_u16 (from_rom sample_rom) 0xFFFE = .ok 0x0000 ∧
      m.cpu.pc = 0x8001 ∧ ¬ m.cpu.pc = 0x0000 := by
  rw [from_rom_sample]
  have hv4 : read_u8
      ({ cpu := { pc := 0x8000, a := 0, x := 0, y := 0, s := 0xFD, p := 0x34,
                  nmi := false },
         ram := List.replicate 0x0800 0, rom := sample_rom,
         micro := .boundary, ppuCycle := 0, ppuFrame := 0, raises := 0 } : Nes)
      0xFFFE = .ok 0 := by
    rw [read_rom_sample rfl (by norm_num) (by norm_num),
        show ((0xFFFE : Nat) - 0x8000) % 16384 = 16378 + 4 from by norm_num,
        sample_rom_getD_vec (by norm_num)]
    rfl
  have hv5 : read_u8
      ({ cpu := { pc := 0x8000, a := 0, x := 0, y := 0, s := 0xFD, p := 0x34,
                  nmi := false },
         ram := List.replicate 0x0800 0, rom := sample_rom,
         micro := .boundary, ppuCycle := 0, ppuFrame := 0, raises := 0 } : Nes)
      0xFFFF = .ok 0 := by
    rw [read_rom_sample rfl (by norm_num) (by norm_num),
        show ((0xFFFF : Nat) - 0x8000) % 16384 = 16378 + 5 from by norm_num,
        sample_rom_getD_vec (by norm_num)]
    rfl
  have h16 : read_u16
      ({ cpu := { pc := 0x8000, a := 0, x := 0, y := 0, s := 0xFD, p := 0x34,
                  nmi := false },
         ram := List.replicate 0x0800 0, rom := sample_rom,
         micro := .boundary, ppuCycle := 0, ppuFrame := 0, raises := 0 } : Nes)
      0xFFFE = .ok 0x0000 := by
    unfold read_u16
    rw [hv4, show ((0xFFFE : Nat) + 1) % 65536 = 0xFFFF from by norm_num, hv5]
    rfl
  have hrd : read_u8
      ({ cpu := { pc := 0x8000, a := 0, x := 0, y := 0, s := 0xFD, p := 0x34,
                  nmi := true },
         ram := List.replicate 0x0800 0, rom := sample_rom,
         micro := .boundary, ppuCycle := 0, ppuFrame := 0, raises := 0 } : Nes)
      0x8000 = .ok 0xA9 := by
    rw [read_prog_sample rfl (by norm_num) (by norm_num)]
    rfl
  have hcs := cpuStep_boundary (show CpuMicro.boundary = CpuMicro.boundary
    from rfl) hrd
  exact ⟨_, hcs, rfl, h16, by norm_num, by norm_num⟩

/-! ### Claim C9 -/

/-- C9: at an instruction boundary where the next opcode is 0x69 (ADC
immediate) with operand `v`, the two micro-steps complete without any
trap and leave the accumulator at `(a + v) % 256` — the embedding of
`wrapping_add` on `u8`. -/
theorem claim_C9 (s : Nes) (v : Nat) (hb : s.micro = .boundary)
    (hop : read_u8 s s.cpu.pc = .ok 0x69)
    (hv : read_u8 s ((s.cpu.pc + 1) % 65536) = .ok v) :
    ∃ s1 s2, cpuStep s = .ok s1 ∧ cpuStep s1 = .ok s2 ∧
      s2.micro = .boundary ∧ s2.cpu.a = (s.cpu.a + v) % 256 := by
  have h1 := cpuStep_boundary hb hop
  have hv1 : read_u8
      ({ s with
           cpu := { s.cpu with pc := (s.cpu.pc + 1) % 65536, nmi := false },
           micro := .fetched 0x69 } : Nes)
      ((s.cpu.pc + 1) % 65536) = .ok v :=
    (read_u8_ext rfl rfl _).trans hv
  have h2 := cpuStep_adc_imm rfl hv1
  exact ⟨_, _, h1, h2, rfl, rfl⟩

/-- C9, witness: 0xFF + 0x02 wraps to 0x01. -/
theorem claim_C9_witness :
    ∃ s1 s2,
      cpuStep { cpu := { pc := 0x8000, a := 0xFF, x := 0, y := 0, s := 0xFD,
                         p := 0x34, nmi := false },
                ram := [0], rom := [0x69, 0x02], micro := .boundary,
                ppuCycle := 0, ppuFrame := 0, raises := 0 } = .ok s1 ∧
      cpuStep s1 = .ok s2 ∧ s2.micro = .boundary ∧ s2.cpu.a = 0x01 :=
  claim_C9 _ 0x02 rfl (by decide) (by decide)

/-! ### Claim C5 -/

/-- C5: from an instruction boundary, load-immediate completes in
exactly 2 micro-steps (the intermediate state is not a boundary, the
final one is) and leaves the accumulator equal to its operand;
zero-page store and absolute jump complete in exactly 3 micro-steps
(both intermediate states are not boundaries, the final one is). -/
theorem claim_C5 (s : Nes) (hb : s.micro = .boundary) :
    (∀ v, read_u8 s s.cpu.pc = .ok 0xA9 →
      read_u8 s ((s.cpu.pc + 1) % 65536) = .ok v →
      ∃ s1 s2, cpuStep s = .ok s1 ∧ ¬ s1.micro = .boundary ∧
        cpuStep s1 = .ok s2 ∧ s2.micro = .boundary ∧ s2.cpu.a = v) ∧
    (∀ z, read_u8 s s.cpu.pc = .ok 0x86 →
      read_u8 s ((s.cpu.pc + 1) % 65536) = .ok z → z < 256 →
      ∃ s1 s2 s3, cpuStep s = .ok s1 ∧ ¬ s1.micro = .boundary ∧
        cpuStep s1 = .ok s2 ∧ ¬ s2.micro = .boundary ∧
        cpuStep s2 = .ok s3 ∧ s3.micro = .boundary) ∧
    (∀ lo hi, read_u8 s s.cpu.pc = .ok 0x4C →
      read_u8 s ((s.cpu.pc + 1) % 65536) = .ok lo →
      read_u8 s ((s.cpu.pc + 2) % 65536) = .ok hi →
      ∃ s1 s2 s3, cpuStep s = .ok s1 ∧ ¬ s1.micro = .boundary ∧
        cpuStep s1 = .ok s2 ∧ ¬ s2.micro = .boundary ∧
        cpuStep s2 = .ok s3 ∧ s3.micro = .boundary) := by
  refine ⟨?_, ?_, ?_⟩
  · intro v hop hv
    have h1 := cpuStep_boundary hb hop
    have hv1 : read_u8
        ({ s with
             cpu := { s.cpu with pc := (s.cpu.pc + 1) % 65536, nmi := false },
             micro := .fetched 0xA9 } : Nes)
        ((s.cpu.pc + 1) % 65536) = .ok v := (read_u8_ext rfl rfl _).trans hv
    have h2 := cpuStep_lda_imm rfl hv1
    refine ⟨_, _, h1, ?_, h2, rfl, rfl⟩
    intro hh
    cases hh
  · intro z hop hz hz2
    have h1 := cpuStep_boundary hb hop
    have hz1 : read_u8
        ({ s with
             cpu := { s.cpu with pc := (s.cpu.pc + 1) % 65536, nmi := false },
             micro := .fetched 0x86 } : Nes)
        ((s.cpu.pc + 1) % 65536) = .ok z := (read_u8_ext rfl rfl _).trans hz
    have h2 := cpuStep_stx_op rfl hz1
    have h3 := cpuStep_stx_wr rfl
      (write_ram_window
        ({ s with
             cpu := { s.cpu with pc := ((s.cpu.pc + 1) % 65536 + 1) % 65536,
                                 nmi := false },
             micro := .stx2 z } : Nes) s.cpu.x (by omega))
    refine ⟨_, _, _, h1, ?_, h2, ?_, h3, rfl⟩
    · intro hh
      cases hh
    · intro hh
      cases hh
  · intro lo hi hop hlo hhi
    have h1 := cpuStep_boundary hb hop
    have hlo1 : read_u8
        ({ s with
             cpu := { s.cpu with pc := (s.cpu.pc + 1) % 65536, nmi := false },
             micro := .fetched 0x4C } : Nes)
        ((s.cpu.pc + 1) % 65536) = .ok lo := (read_u8_ext rfl rfl _).trans hlo
    have h2 := cpuStep_jmp_op rfl hlo1
    have hhi1 : read_u8
        ({ s with
             cpu := { s.cpu with pc := ((s.cpu.pc + 1) % 65536 + 1) % 65536,
                                 nmi := false },
             micro := .jmp2 lo } : Nes)
        (((s.cpu.pc + 1) % 65536 + 1) % 65536) = .ok hi := by
      rw [show ((s.cpu.pc + 1) % 65536 + 1) % 65536 = (s.cpu.pc + 2) % 65536
            from by omega]
      exact (read_u8_ext rfl rfl _).trans hhi
    have h3 := cpuStep_jmp_hi rfl hhi1
    refine ⟨_, _, _, h1, ?_, h2, ?_, h3, rfl⟩
    · intro hh
      cases hh
    · intro hh
      cases hh

/-- C5, witness: a load-immediate of 7 from a boundary takes its two
micro-steps and loads 7. -/
theorem claim_C5_witness :
    ∃ s1 s2,
      cpuStep { cpu := { pc := 0x8000, a := 0, x := 0, y := 0, s := 0xFD,
                         p := 0x34, nmi := false },
                ram := [0], rom := [0xA9, 0x07], micro := .boundary,
                ppuCycle := 0, ppuFrame := 0, raises := 0 } = .ok s1 ∧
      ¬ s1.micro = .boundary ∧
      cpuStep s1 = .ok s2 ∧ s2.micro = .boundary ∧ s2.cpu.a = 0x07 :=
  (claim_C5 _ rfl).1 0x07 (by decide) (by decide)

/-! ### Claim C10 -/

theorem read_ok_byte {n : Nes} (hram : ∀ b ∈ n.ram, b < 256)
    (hrom : ∀ b ∈ n.rom, b < 256) {a v : Nat}
    (h : read_u8 n a = .ok v) : v < 256 := by
  unfold read_u8 at h
  split at h
  · cases h
    by_cases hi : a % n.ram.length < n.ram.length
    · rw [List.getD_eq_getElem _ _ hi]
      exact hram _ (List.getElem_mem hi)
    · rw [List.getD_eq_default _ _ (by omega)]
      norm_num
  · split at h
    · cases h
      by_cases hi : (a - 0x8000) % n.rom.length < n.rom.length
      · rw [List.getD_eq_getElem _ _ hi]
        exact hrom _ (List.getElem_mem hi)
      · rw [List.getD_eq_default _ _ (by omega)]
        norm_num
    · cases h

theorem write_u8_ram_bytes {n m : Nes} {a v : Nat}
    (h : write_u8 n a v = .ok m) (hram : ∀ b ∈ n.ram, b < 256)
    (hv : v < 256) : ∀ b ∈ m.ram, b < 256 := by
  unfold write_u8 at h
  split at h
  · cases h
    intro b hb
    rcases List.mem_or_eq_of_mem_set hb with h1 | h2
    · exact hram b h1
    · omega
  · split at h
    · cases h
      exact hram
    · cases h

/-- Every successful CPU micro-step preserves the byte invariants. -/
theorem cpuStep_WF {n m : Nes} (hwf : WF n) (h : cpuStep n = .ok m) :
    WF m := by
  obtain ⟨hram, hrom, ha, hx, hmb⟩ := hwf
  obtain ⟨⟨pc, a, x, y, sp, pp, nmi⟩, ram, rom, mi, cy, fr, rs⟩ := n
  dsimp only at hram hrom ha hx hmb
  unfold cpuStep at h
  split at h
  · -- boundary
    dsimp only at h
    cases nmi
    all_goals
      first
        | rw [if_neg Bool.false_ne_true] at h
        | rw [if_pos rfl] at h
    all_goals
      split at h
      · cases h
      · rename_i v hv
        cases h
        exact ⟨hram, hrom, ha, hx, trivial⟩
  · -- fetched opcode
    split at h <;>
      [ (split at h
         · cases h
         · rename_i v hv
           cases h
           exact ⟨hram, hrom, read_ok_byte hram hrom hv, hx, trivial⟩);
        (split at h
         · cases h
         · rename_i v hv
           cases h
           exact ⟨hram, hrom, by dsimp only; omega, hx, trivial⟩);
        (split at h
         · cases h
         · rename_i v hv
           cases h
           exact ⟨hram, hrom, ha, ha, trivial⟩);
        (split at h
         · cases h
         · rename_i v hv
           cases h
           exact ⟨hram, hrom, ha, hx, read_ok_byte hram hrom hv⟩);
        (split at h
         · cases h
         · rename_i v hv
           cases h
           exact ⟨hram, hrom, ha, hx, read_ok_byte hram hrom hv⟩);
        (split at h
         · cases h
         · rename_i v hv
           cases h
           exact ⟨hram, hrom, ha, hx, read_ok_byte hram hrom hv⟩);
        cases h]
  · -- stx2
    split at h
    · cases h
    · rename_i n1 hw
      cases h
      have hf := write_u8_fields hw
      refine ⟨?_, ?_, ?_, ?_, trivial⟩
      · show ∀ b ∈ n1.ram, b < 256
        exact write_u8_ram_bytes hw hram hx
      · rw [show ({ n1 with micro := CpuMicro.boundary } : Nes).rom = n1.rom
              from rfl, hf.2.1]
        exact hrom
      · rw [show ({ n1 with micro := CpuMicro.boundary } : Nes).cpu = n1.cpu
              from rfl, hf.1]
        exact ha
      · rw [show ({ n1 with micro := CpuMicro.boundary } : Nes).cpu = n1.cpu
              from rfl, hf.1]
        exact hx
  · -- ldaZp2
    split at h
    · cases h
    · rename_i v hv
      cases h
      exact ⟨hram, hrom, read_ok_byte hram hrom hv, hx, trivial⟩
  · -- jmp2
    split at h
    · cases h
    · rename_i v hv
      cases h
      exact ⟨hram, hrom, ha, hx, trivial⟩

/-- C10: under the byte invariants (which every successful CPU
micro-step preserves), the operand address of the zero-page opcodes
0x86/0xA5 — formed by zero-extending a single operand byte — is at most
0x00FF, hence inside the RAM window, and the data micro-step of either
opcode always succeeds: the unmapped-address branch is unreachable from
those accesses. -/
theorem claim_C10 (s : Nes) (hwf : WF s) :
    (∀ m, cpuStep s = .ok m → WF m) ∧
    ((s.micro = .fetched 0x86 ∨ s.micro = .fetched 0xA5) →
      ∀ m, cpuStep s = .ok m →
        ∃ a, (m.micro = .stx2 a ∨ m.micro = .ldaZp2 a) ∧ a ≤ 0xFF) ∧
    (∀ z, s.micro = .stx2 z → z ≤ 0xFF ∧ ∃ m, cpuStep s = .ok m) ∧
    (∀ z, s.micro = .ldaZp2 z → z ≤ 0xFF ∧ ∃ m, cpuStep s = .ok m) := by
  refine ⟨fun m => cpuStep_WF hwf, ?_, ?_, ?_⟩
  · rintro (hmi | hmi) m h <;>
      (unfold cpuStep at h
       rw [hmi] at h
       dsimp only at h
       split at h
       · cases h
       · rename_i v hv
         cases h
         exact ⟨v, by simp, Nat.le_of_lt_succ (by
           have := read_ok_byte hwf.1 hwf.2.1 hv
           omega)⟩)
  · intro z hmi
    have hz : z < 256 := by
      have := hwf.2.2.2.2
      rw [hmi] at this
      exact this
    refine ⟨by omega, ?_⟩
    exact ⟨_, cpuStep_stx_wr hmi (write_ram_window s s.cpu.x (by omega))⟩
  · intro z hmi
    have hz : z < 256 := by
      have := hwf.2.2.2.2
      rw [hmi] at this
      exact this
    refine ⟨by omega, ?_⟩
    exact ⟨_, cpuStep_ldaZp_rd hmi (read_ram_window s (by omega))⟩

/-- C10, witness: a machine mid-way through `STX $01` with byte-clean
state; the store micro-step succeeds. -/
theorem claim_C10_witness :
    1 ≤ 0xFF ∧
    ∃ m, cpuStep { cpu := { pc := 0, a := 0, x := 7, y := 0, s := 0xFD,
                            p := 0x34, nmi := false },
                   ram := [1, 2], rom := [3], micro := .stx2 1,
                   ppuCycle := 0, ppuFrame := 0, raises := 0 } = .ok m :=
  (claim_C10 _ ⟨by decide, by decide, by norm_num, by norm_num,
    by norm_num [microBytes]⟩).2.2.1 1 rfl

/-! ### Claim C4 -/

theorem runN_cons {k : Nat} {n n1 m : Nes} (h : masterStep n = .ok n1)
    (h2 : runN k n1 = .ok m) : runN (k + 1) n = .ok m := by
  rw [runN_succ, h]
  exact h2

/-- The byte stored by `STX $01` as read back from the mirrored RAM. -/
theorem ramW_getD :
    ((List.replicate 0x0800 0).set 1 0x0B).getD 1 0 = 0x0B := by
  rw [List.getD_eq_getElem _ _ (by
        rw [List.length_set, List.length_replicate]; norm_num),
      List.getElem_set_self]

/-- One master cycle, tracked through the CPU-visible projections: the
three video dots after the CPU micro-step change none of them. -/
theorem master_from (n n1 : Nes) (h : cpuStep n = .ok n1) :
    ∃ m, masterStep n = .ok m ∧ m.cpu.pc = n1.cpu.pc ∧
      m.cpu.a = n1.cpu.a ∧ m.cpu.x = n1.cpu.x ∧ m.ram = n1.ram ∧
      m.rom = n1.rom ∧ m.micro = n1.micro := by
  have hp := ppuSteps_preserves 3 n1
  exact ⟨ppuSteps 3 n1, masterStep_eq h, hp.1, hp.2.1, hp.2.2.1,
         hp.2.2.2.1, hp.2.2.2.2.1, hp.2.2.2.2.2⟩

/-- Three master cycles from an instruction boundary at 0x8009 on the
sample ROM execute the `JMP $8009` there and return to the same
boundary, leaving A, X, RAM untouched. -/
theorem jmp_loop (s : Nes) (hb : s.micro = .boundary)
    (hpc : s.cpu.pc = 0x8009) (hrom : s.rom = sample_rom) :
    ∃ m, runN 3 s = .ok m ∧ m.micro = .boundary ∧ m.cpu.pc = 0x8009 ∧
      m.rom = sample_rom ∧ m.cpu.a = s.cpu.a ∧ m.cpu.x = s.cpu.x ∧
      m.ram = s.ram := by
  obtain ⟨⟨pc, a, x, y, sp, pp, nmi⟩, ram, rom, mi, cy, fr, rs⟩ := s
  dsimp only at hb hpc hrom ⊢
  subst hb hpc hrom
  have r1 : read_u8
      ({ cpu := { pc := 0x8009, a := a, x := x, y := y, s := sp, p := pp,
                  nmi := nmi },
         ram := ram, rom := sample_rom, micro := .boundary,
         ppuCycle := cy, ppuFrame := fr, raises := rs } : Nes)
      0x8009 = .ok 0x4C := by
    rw [read_prog_sample rfl (by norm_num) (by norm_num)]
    rfl
  have h1 := cpuStep_boundary rfl r1
  norm_num at h1
  obtain ⟨m1, hms1, h1pc, h1a, h1x, h1ram, h1rom, h1mi⟩ := master_from _ _ h1
  dsimp only at h1pc h1a h1x h1ram h1rom h1mi
  have r2 : read_u8 m1 m1.cpu.pc = .ok 0x09 := by
    rw [h1pc, read_prog_sample h1rom (by norm_num) (by norm_num)]
    rfl
  have h2 := cpuStep_jmp_op h1mi r2
  obtain ⟨m2, hms2, h2pc, h2a, h2x, h2ram, h2rom, h2mi⟩ := master_from _ _ h2
  dsimp only at h2pc h2a h2x h2ram h2rom h2mi
  rw [h1pc] at h2pc
  norm_num at h2pc
  rw [h1rom] at h2rom
  have r3 : read_u8 m2 m2.cpu.pc = .ok 0x80 := by
    rw [h2pc, read_prog_sample h2rom (by norm_num) (by norm_num)]
    rfl
  have h3 := cpuStep_jmp_hi h2mi r3
  obtain ⟨m3, hms3, h3pc, h3a, h3x, h3ram, h3rom, h3mi⟩ := master_from _ _ h3
  dsimp only at h3pc h3a h3x h3ram h3rom h3mi
  rw [show ((0x09 : Nat) ||| 0x80 <<< 8) = 0x8009 from by decide] at h3pc
  rw [h2rom] at h3rom
  refine ⟨m3, ?_, h3mi, h3pc, h3rom,
          (h3a.trans h2a).trans h1a, (h3x.trans h2x).trans h1x,
          (h3ram.trans h2ram).trans h1ram⟩
  rw [show (3 : Nat) = 2 + 1 from rfl]
  refine runN_cons hms1 ?_
  rw [show (2 : Nat) = 1 + 1 from rfl]
  refine runN_cons hms2 ?_
  rw [show (1 : Nat) = 0 + 1 from rfl]
  exact runN_cons hms3 (runN_zero _)

/-- Iterating `jmp_loop`: `3*k` master cycles keep the machine at the
0x8009 boundary with A, X and RAM unchanged. -/
theorem jmp_loop_iter (k : Nat) : ∀ (s : Nes), s.micro = .boundary →
    s.cpu.pc = 0x8009 → s.rom = sample_rom →
    ∃ m, runN (3 * k) s = .ok m ∧ m.micro = .boundary ∧
      m.cpu.pc = 0x8009 ∧ m.rom = sample_rom ∧ m.cpu.a = s.cpu.a ∧
      m.cpu.x = s.cpu.x ∧ m.ram = s.ram := by
  induction k with
  | zero =>
    intro s h1 h2 h3
    exact ⟨s, runN_zero s, h1, h2, h3, rfl, rfl, rfl⟩
  | succ k ih =>
    intro s h1 h2 h3
    obtain ⟨m1, hr1, hb1, hp1, hro1, ha1, hx1, hram1⟩ := jmp_loop s h1 h2 h3
    obtain ⟨m2, hr2, hb2, hp2, hro2, ha2, hx2, hram2⟩ := ih m1 hb1 hp1 hro1
    refine ⟨m2, ?_, hb2, hp2, hro2, ha2.trans ha1, hx2.trans hx1,
            hram2.trans hram1⟩
    rw [show 3 * (k + 1) = 3 + 3 * k from by ring, runN_add 3 (3 * k), hr1]
    exact hr2

/-- C4: from the sample ROM (reset vector 0x8000), fifteen master cycles
execute LDA #$05, ADC #$06, TAX, STX $01, LDA $01 and the first JMP
$8009 in full: A = X = 0x0B, RAM[0x0001] = 0x0B, and the program counter
has reached 0x8009 through the jump's micro-steps (one cycle earlier the
CPU was suspended mid-JMP holding the target low byte); thereafter every
further 3 master cycles re-execute the jump, so the machine loops at
0x8009 with those values forever. -/
theorem claim_C4 :
    runN 15 (from_rom sample_rom)
      = .ok (runState 15 (from_rom sample_rom)) ∧
    (runState 15 (from_rom sample_rom)).cpu.a = 0x0B ∧
    (runState 15 (from_rom sample_rom)).cpu.x = 0x0B ∧
    (runState 15 (from_rom sample_rom)).ram.getD 1 0 = 0x0B ∧
    (runState 15 (from_rom sample_rom)).cpu.pc = 0x8009 ∧
    (runState 15 (from_rom sample_rom)).micro = .boundary ∧
    runN 14 (from_rom sample_rom)
      = .ok (runState 14 (from_rom sample_rom)) ∧
    (runState 14 (from_rom sample_rom)).micro = .jmp2 0x09 ∧
    (∀ k, ∃ m, runN (15 + 3 * k) (from_rom sample_rom) = .ok m ∧
      m.cpu.pc = 0x8009 ∧ m.cpu.a = 0x0B ∧ m.cpu.x = 0x0B ∧
      m.ram.getD 1 0 = 0x0B) := by
  have hM1 : masterStep
      ({ cpu := { pc := 0x8000, a := 0, x := 0, y := 0, s := 0xFD,
                    p := 0x34, nmi := false },
           ram := List.replicate 0x0800 0,
           rom := sample_rom, micro := .boundary,
           ppuCycle := 0, ppuFrame := 0, raises := 0 } : Nes) = .ok
      ({ cpu := { pc := 0x8001, a := 0, x := 0, y := 0, s := 0xFD,
                    p := 0x34, nmi := true },
           ram := List.replicate 0x0800 0,
           rom := sample_rom, micro := .fetched 0xA9,
           ppuCycle := 3, ppuFrame := 0, raises := 1 } : Nes) := by
    have hr : read_u8
        ({ cpu := { pc := 0x8000, a := 0, x := 0, y := 0, s := 0xFD,
                    p := 0x34, nmi := false },
           ram := List.replicate 0x0800 0,
           rom := sample_rom, micro := .boundary,
           ppuCycle := 0, ppuFrame := 0, raises := 0 } : Nes) 0x8000 = .ok 0xA9 := by
      rw [read_prog_sample rfl (by norm_num) (by norm_num)]
      rfl
    rw [masterStep_eq (cpuStep_boundary rfl hr)]
    norm_num [ppuSteps, ppuStep]
  have hM2 : masterStep
      ({ cpu := { pc := 0x8001, a := 0, x := 0, y := 0, s := 0xFD,
                    p := 0x34, nmi := true },
           ram := List.replicate 0x0800 0,
           rom := sample_rom, micro := .fetched 0xA9,
           ppuCycle := 3, ppuFrame := 0, raises := 1 } : Nes) = .ok
      ({ cpu := { pc := 0x8002, a := 0x05, x := 0, y := 0, s := 0xFD,
                    p := 0x34, nmi := true },
           ram := List.replicate 0x0800 0,
           rom := sample_rom, micro := .boundary,
           ppuCycle := 6, ppuFrame := 0, raises := 1 } : Nes) := by
    have hr : read_u8
        ({ cpu := { pc := 0x8001, a := 0, x := 0, y := 0, s := 0xFD,
                    p := 0x34, nmi := true },
           ram := List.replicate 0x0800 0,
           rom := sample_rom, micro := .fetched 0xA9,
           ppuCycle := 3, ppuFrame := 0, raises := 1 } : Nes) 0x8001 = .ok 0x05 := by
      rw [read_prog_sample rfl (by norm_num) (by norm_num)]
      rfl
    rw [masterStep_eq (cpuStep_lda_imm rfl hr)]
    norm_num [ppuSteps, ppuStep]
  have hM3 : masterStep
      ({ cpu := { pc := 0x8002, a := 0x05, x := 0, y := 0, s := 0xFD,
                    p := 0x34, nmi := true },
           ram := List.replicate 0x0800 0,
           rom := sample_rom, micro := .boundary,
           ppuCycle := 6, ppuFrame := 0, raises := 1 } : Nes) = .ok
      ({ cpu := { pc := 0x8003, a := 0x05, x := 0, y := 0, s := 0xFD,
                    p := 0x34, nmi := false },
           ram := List.replicate 0x0800 0,
           rom := sample_rom, micro := .fetched 0x69,
           ppuCycle := 9, ppuFrame := 0, raises := 1 } : Nes) := by
    have hr : read_u8
        ({ cpu := { pc := 0x8002, a := 0x05, x := 0, y := 0, s := 0xFD,
                    p := 0x34, nmi := true },
           ram := List.replicate 0x0800 0,
           rom := sample_rom, micro := .boundary,
           ppuCycle := 6, ppuFrame := 0, raises := 1 } : Nes) 0x8002 = .ok 0x69 := by
      rw [read_prog_sample rfl (by norm_num) (by norm_num)]
      rfl
    rw [masterStep_eq (cpuStep_boundary rfl hr)]
    norm_num [ppuSteps, ppuStep]
  have hM4 : masterStep
      ({ cpu := { pc := 0x8003, a := 0x05, x := 0, y := 0, s := 0xFD,
                    p := 0x34, nmi := false },
           ram := List.replicate 0x0800 0,
           rom := sample_rom, micro := .fetched 0x69,
           ppuCycle := 9, ppuFrame := 0, raises := 1 } : Nes) = .ok
      ({ cpu := { pc := 0x8004, a := 0x0B, x := 0, y := 0, s := 0xFD,
                    p := 0x34, nmi := false },
           ram := List.replicate 0x0800 0,
           rom := sample_rom, micro := .boundary,
           ppuCycle := 12, ppuFrame := 0, raises := 1 } : Nes) := by
    have hr : read_u8
        ({ cpu := { pc := 0x8003, a := 0x05, x := 0, y := 0, s := 0xFD,
                    p := 0x34, nmi := false },
           ram := List.replicate 0x0800 0,
           rom := sample_rom, micro := .fetched 0x69,
           ppuCycle := 9, ppuFrame := 0, raises := 1 } : Nes) 0x8003 = .ok 0x06 := by
      rw [read_prog_sample rfl (by norm_num) (by norm_num)]
      rfl
    rw [masterStep_eq (cpuStep_adc_imm rfl hr)]
    norm_num [ppuSteps, ppuStep]
  have hM5 : masterStep
      ({ cpu := { pc := 0x8004, a := 0x0B, x := 0, y := 0, s := 0xFD,
                    p := 0x34, nmi := false },
           ram := List.replicate 0x0800 0,
           rom := sample_rom, micro := .boundary,
           ppuCycle := 12, ppuFrame := 0, raises := 1 } : Nes) = .ok
      ({ cpu := { pc := 0x8005, a := 0x0B, x := 0, y := 0, s := 0xFD,
                    p := 0x34, nmi := false },
           ram := List.replicate 0x0800 0,
           rom := sample_rom, micro := .fetched 0xAA,
           ppuCycle := 15, ppuFrame := 0, raises := 1 } : Nes) := by
    have hr : read_u8
        ({ cpu := { pc := 0x8004, a := 0x0B, x := 0, y := 0, s := 0xFD,
                    p := 0x34, nmi := false },
           ram := List.replicate 0x0800 0,
           rom := sample_rom, micro := .boundary,
           ppuCycle := 12, ppuFrame := 0, raises := 1 } : Nes) 0x8004 = .ok 0xAA := by
      rw [read_prog_sample rfl (by norm_num) (by norm_num)]
      rfl
    rw [masterStep_eq (cpuStep_boundary rfl hr)]
    norm_num [ppuSteps, ppuStep]
  have hM6 : masterStep
      ({ cpu := { pc := 0x8005, a := 0x0B, x := 0, y := 0, s := 0xFD,
                    p := 0x34, nmi := false },
           ram := List.replicate 0x0800 0,
           rom := sample_rom, micro := .fetched 0xAA,
           ppuCycle := 15, ppuFrame := 0, raises := 1 } : Nes) = .ok
      ({ cpu := { pc := 0x8005, a := 0x0B, x := 0x0B, y := 0, s := 0xFD,
                    p := 0x34, nmi := false },
           ram := List.replicate 0x0800 0,
           rom := sample_rom, micro := .boundary,
           ppuCycle := 18, ppuFrame := 0, raises := 1 } : Nes) := by
    have hr : read_u8
        ({ cpu := { pc := 0x8005, a := 0x0B, x := 0, y := 0, s := 0xFD,
                    p := 0x34, nmi := false },
           ram := List.replicate 0x0800 0,
           rom := sample_rom, micro := .fetched 0xAA,
           ppuCycle := 15, ppuFrame := 0, raises := 1 } : Nes) 0x8005 = .ok 0x86 := by
      rw [read_prog_sample rfl (by norm_num) (by norm_num)]
      rfl
    rw [masterStep_eq (cpuStep_tax rfl hr)]
    norm_num [ppuSteps, ppuStep]
  have hM7 : masterStep
      ({ cpu := { pc := 0x8005, a := 0x0B, x := 0x0B, y := 0, s := 0xFD,
                    p := 0x34, nmi := false },
           ram := List.replicate 0x0800 0,
           rom := sample_rom, micro := .boundary,
           ppuCycle := 18, ppuFrame := 0, raises := 1 } : Nes) = .ok
      ({ cpu := { pc := 0x8006, a := 0x0B, x := 0x0B, y := 0, s := 0xFD,
                    p := 0x34, nmi := false },
           ram := List.replicate 0x0800 0,
           rom := sample_rom, micro := .fetched 0x86,
           ppuCycle := 21, ppuFrame := 0, raises := 1 } : Nes) := by
    have hr : read_u8
        ({ cpu := { pc := 0x8005, a := 0x0B, x := 0x0B, y := 0, s := 0xFD,
                    p := 0x34, nmi := false },
           ram := List.replicate 0x0800 0,
           rom := sample_rom, micro := .boundary,
           ppuCycle := 18, ppuFrame := 0, raises := 1 } : Nes) 0x8005 = .ok 0x86 := by
      rw [read_prog_sample rfl (by norm_num) (by norm_num)]
      rfl
    rw [masterStep_eq (cpuStep_boundary rfl hr)]
    norm_num [ppuSteps, ppuStep]
  have hM8 : masterStep
      ({ cpu := { pc := 0x8006, a := 0x0B, x := 0x0B, y := 0, s := 0xFD,
                    p := 0x34, nmi := false },
           ram := List.replicate 0x0800 0,
           rom := sample_rom, micro := .fetched 0x86,
           ppuCycle := 21, ppuFrame := 0, raises := 1 } : Nes) = .ok
      ({ cpu := { pc := 0x8007, a := 0x0B, x := 0x0B, y := 0, s := 0xFD,
                    p := 0x34, nmi := false },
           ram := List.replicate 0x0800 0,
           rom := sample_rom, micro := .stx2 0x01,
           ppuCycle := 24, ppuFrame := 0, raises := 1 } : Nes) := by
    have hr : read_u8
        ({ cpu := { pc := 0x8006, a := 0x0B, x := 0x0B, y := 0, s := 0xFD,
                    p := 0x34, nmi := false },
           ram := List.replicate 0x0800 0,
           rom := sample_rom, micro := .fetched 0x86,
           ppuCycle := 21, ppuFrame := 0, raises := 1 } : Nes) 0x8006 = .ok 0x01 := by
      rw [read_prog_sample rfl (by norm_num) (by norm_num)]
      rfl
    rw [masterStep_eq (cpuStep_stx_op rfl hr)]
    norm_num [ppuSteps, ppuStep]
  have hM9 : masterStep
      ({ cpu := { pc := 0x8007, a := 0x0B, x := 0x0B, y := 0, s := 0xFD,
                    p := 0x34, nmi := false },
           ram := List.replicate 0x0800 0,
           rom := sample_rom, micro := .stx2 0x01,
           ppuCycle := 24, ppuFrame := 0, raises := 1 } : Nes) = .ok
      ({ cpu := { pc := 0x8007, a := 0x0B, x := 0x0B, y := 0, s := 0xFD,
                    p := 0x34, nmi := false },
           ram := (List.replicate 0x0800 0).set 1 0x0B,
           rom := sample_rom, micro := .boundary,
           ppuCycle := 27, ppuFrame := 0, raises := 1 } : Nes) := by
    rw [masterStep_eq (cpuStep_stx_wr rfl (write_ram_window _ _ (by norm_num)))]
    dsimp only
    rw [show (1 % (List.replicate 0x0800 (0 : Nat)).length) = 1 from by
          rw [List.length_replicate]]
    norm_num [ppuSteps, ppuStep]
  have hM10 : masterStep
      ({ cpu := { pc := 0x8007, a := 0x0B, x := 0x0B, y := 0, s := 0xFD,
                    p := 0x34, nmi := false },
           ram := (List.replicate 0x0800 0).set 1 0x0B,
           rom := sample_rom, micro := .boundary,
           ppuCycle := 27, ppuFrame := 0, raises := 1 } : Nes) = .ok
      ({ cpu := { pc := 0x8008, a := 0x0B, x := 0x0B, y := 0, s := 0xFD,
                    p := 0x34, nmi := false },
           ram := (List.replicate 0x0800 0).set 1 0x0B,
           rom := sample_rom, micro := .fetched 0xA5,
           ppuCycle := 30, ppuFrame := 0, raises := 1 } : Nes) := by
    have hr : read_u8
        ({ cpu := { pc := 0x8007, a := 0x0B, x := 0x0B, y := 0, s := 0xFD,
                    p := 0x34, nmi := false },
           ram := (List.replicate 0x0800 0).set 1 0x0B,
           rom := sample_rom, micro := .boundary,
           ppuCycle := 27, ppuFrame := 0, raises := 1 } : Nes) 0x8007 = .ok 0xA5 := by
      rw [read_prog_sample rfl (by norm_num) (by norm_num)]
      rfl
    rw [masterStep_eq (cpuStep_boundary rfl hr)]
    norm_num [ppuSteps, ppuStep]
  have hM11 : masterStep
      ({ cpu := { pc := 0x8008, a := 0x0B, x := 0x0B, y := 0, s := 0xFD,
                    p := 0x34, nmi := false },
           ram := (List.replicate 0x0800 0).set 1 0x0B,
           rom := sample_rom, micro := .fetched 0xA5,
           ppuCycle := 30, ppuFrame := 0, raises := 1 } : Nes) = .ok
      ({ cpu := { pc := 0x8009, a := 0x0B, x := 0x0B, y := 0, s := 0xFD,
                    p := 0x34, nmi := false },
           ram := (List.replicate 0x0800 0).set 1 0x0B,
           rom := sample_rom, micro := .ldaZp2 0x01,
           ppuCycle := 33, ppuFrame := 0, raises := 1 } : Nes) := by
    have hr : read_u8
        ({ cpu := { pc := 0x8008, a := 0x0B, x := 0x0B, y := 0, s := 0xFD,
                    p := 0x34, nmi := false },
           ram := (List.replicate 0x0800 0).set 1 0x0B,
           rom := sample_rom, micro := .fetched 0xA5,
           ppuCycle := 30, ppuFrame := 0, raises := 1 } : Nes) 0x8008 = .ok 0x01 := by
      rw [read_prog_sample rfl (by norm_num) (by norm_num)]
      rfl
    rw [masterStep_eq (cpuStep_ldaZp_op rfl hr)]
    norm_num [ppuSteps, ppuStep]
  have hM12 : masterStep
      ({ cpu := { pc := 0x8009, a := 0x0B, x := 0x0B, y := 0, s := 0xFD,
                    p := 0x34, nmi := false },
           ram := (List.replicate 0x0800 0).set 1 0x0B,
           rom := sample_rom, micro := .ldaZp2 0x01,
           ppuCycle := 33, ppuFrame := 0, raises := 1 } : Nes) = .ok
      ({ cpu := { pc := 0x8009, a := 0x0B, x := 0x0B, y := 0, s := 0xFD,
                    p := 0x34, nmi := false },
           ram := (List.replicate 0x0800 0).set 1 0x0B,
           rom := sample_rom, micro := .boundary,
           ppuCycle := 36, ppuFrame := 0, raises := 1 } : Nes) := by
    have hr : read_u8
        ({ cpu := { pc := 0x8009, a := 0x0B, x := 0x0B, y := 0, s := 0xFD,
                    p := 0x34, nmi := false },
           ram := (List.replicate 0x0800 0).set 1 0x0B,
           rom := sample_rom, micro := .ldaZp2 0x01,
           ppuCycle := 33, ppuFrame := 0, raises := 1 } : Nes) 0x01 = .ok 0x0B := by
      rw [read_ram_window _ (by norm_num)]
      dsimp only
      rw [List.length_set, List.length_replicate,
          show ((0x01 : Nat) % 0x0800) = 1 from by norm_num, ramW_getD]
    rw [masterStep_eq (cpuStep_ldaZp_rd rfl hr)]
    norm_num [ppuSteps, ppuStep]
  have hM13 : masterStep
      ({ cpu := { pc := 0x8009, a := 0x0B, x := 0x0B, y := 0, s := 0xFD,
                    p := 0x34, nmi := false },
           ram := (List.replicate 0x0800 0).set 1 0x0B,
           rom := sample_rom, micro := .boundary,
           ppuCycle := 36, ppuFrame := 0, raises := 1 } : Nes) = .ok
      ({ cpu := { pc := 0x800A, a := 0x0B, x := 0x0B, y := 0, s := 0xFD,
                    p := 0x34, nmi := false },
           ram := (List.replicate 0x0800 0).set 1 0x0B,
           rom := sample_rom, micro := .fetched 0x4C,
           ppuCycle := 39, ppuFrame := 0, raises := 1 } : Nes) := by
    have hr : read_u8
        ({ cpu := { pc := 0x8009, a := 0x0B, x := 0x0B, y := 0, s := 0xFD,
                    p := 0x34, nmi := false },
           ram := (List.replicate 0x0800 0).set 1 0x0B,
           rom := sample_rom, micro := .boundary,
           ppuCycle := 36, ppuFrame := 0, raises := 1 } : Nes) 0x8009 = .ok 0x4C := by
      rw [read_prog_sample rfl (by norm_num) (by norm_num)]
      rfl
    rw [masterStep_eq (cpuStep_boundary rfl hr)]
    norm_num [ppuSteps, ppuStep]
  have hM14 : masterStep
      ({ cpu := { pc := 0x800A, a := 0x0B, x := 0x0B, y := 0, s := 0xFD,
                    p := 0x34, nmi := false },
           ram := (List.replicate 0x0800 0).set 1 0x0B,
           rom := sample_rom, micro := .fetched 0x4C,
           ppuCycle := 39, ppuFrame := 0, raises := 1 } : Nes) = .ok
      ({ cpu := { pc := 0x800B, a := 0x0B, x := 0x0B, y := 0, s := 0xFD,
                    p := 0x34, nmi := false },
           ram := (List.replicate 0x0800 0).set 1 0x0B,
           rom := sample_rom, micro := .jmp2 0x09,
           ppuCycle := 42, ppuFrame := 0, raises := 1 } : Nes) := by
    have hr : read_u8
        ({ cpu := { pc := 0x800A, a := 0x0B, x := 0x0B, y := 0, s := 0xFD,
                    p := 0x34, nmi := false },
           ram := (List.replicate 0x0800 0).set 1 0x0B,
           rom := sample_rom, micro := .fetched 0x4C,
           ppuCycle := 39, ppuFrame := 0, raises := 1 } : Nes) 0x800A = .ok 0x09 := by
      rw [read_prog_sample rfl (by norm_num) (by norm_num)]
      rfl
    rw [masterStep_eq (cpuStep_jmp_op rfl hr)]
    norm_num [ppuSteps, ppuStep]
  have hM15 : masterStep
      ({ cpu := { pc := 0x800B, a := 0x0B, x := 0x0B, y := 0, s := 0xFD,
                    p := 0x34, nmi := false },
           ram := (List.replicate 0x0800 0).set 1 0x0B,
           rom := sample_rom, micro := .jmp2 0x09,
           ppuCycle := 42, ppuFrame := 0, raises := 1 } : Nes) = .ok
      ({ cpu := { pc := 0x8009, a := 0x0B, x := 0x0B, y := 0, s := 0xFD,
                    p := 0x34, nmi := false },
           ram := (List.replicate 0x0800 0).set 1 0x0B,
           rom := sample_rom, micro := .boundary,
           ppuCycle := 45, ppuFrame := 0, raises := 1 } : Nes) := by
    have hr : read_u8
        ({ cpu := { pc := 0x800B, a := 0x0B, x := 0x0B, y := 0, s := 0xFD,
                    p := 0x34, nmi := false },
           ram := (List.replicate 0x0800 0).set 1 0x0B,
           rom := sample_rom, micro := .jmp2 0x09,
           ppuCycle := 42, ppuFrame := 0, raises := 1 } : Nes) 0x800B = .ok 0x80 := by
      rw [read_prog_sample rfl (by norm_num) (by norm_num)]
      rfl
    rw [masterStep_eq (cpuStep_jmp_hi rfl hr)]
    rw [show ((0x09 : Nat) ||| 0x80 <<< 8) = 0x8009 from by decide]
    norm_num [ppuSteps, ppuStep]
  have hC14 : runN 14
      ({ cpu := { pc := 0x8000, a := 0, x := 0, y := 0, s := 0xFD,
                    p := 0x34, nmi := false },
           ram := List.replicate 0x0800 0,
           rom := sample_rom, micro := .boundary,
           ppuCycle := 0, ppuFrame := 0, raises := 0 } : Nes) = .ok
      ({ cpu := { pc := 0x800B, a := 0x0B, x := 0x0B, y := 0, s := 0xFD,
                    p := 0x34, nmi := false },
           ram := (List.replicate 0x0800 0).set 1 0x0B,
           rom := sample_rom, micro := .jmp2 0x09,
           ppuCycle := 42, ppuFrame := 0, raises := 1 } : Nes) := by
    rw [show (14 : Nat) = 13 + 1 from rfl]
    refine runN_cons hM1 ?_
    rw [show (13 : Nat) = 12 + 1 from rfl]
    refine runN_cons hM2 ?_
    rw [show (12 : Nat) = 11 + 1 from rfl]
    refine runN_cons hM3 ?_
    rw [show (11 : Nat) = 10 + 1 from rfl]
    refine runN_cons hM4 ?_
    rw [show (10 : Nat) = 9 + 1 from rfl]
    refine runN_cons hM5 ?_
    rw [show (9 : Nat) = 8 + 1 from rfl]
    refine runN_cons hM6 ?_
    rw [show (8 : Nat) = 7 + 1 from rfl]
    refine runN_cons hM7 ?_
    rw [show (7 : Nat) = 6 + 1 from rfl]
    refine runN_cons hM8 ?_
    rw [show (6 : Nat) = 5 + 1 from rfl]
    refine runN_cons hM9 ?_
    rw [show (5 : Nat) = 4 + 1 from rfl]
    refine runN_cons hM10 ?_
    rw [show (4 : Nat) = 3 + 1 from rfl]
    refine runN_cons hM11 ?_
    rw [show (3 : Nat) = 2 + 1 from rfl]
    refine runN_cons hM12 ?_
    rw [show (2 : Nat) = 1 + 1 from rfl]
    refine runN_cons hM13 ?_
    rw [show (1 : Nat) = 0 + 1 from rfl]
    refine runN_cons hM14 ?_
    exact runN_zero _
  have hC15 : runN 15
      ({ cpu := { pc := 0x8000, a := 0, x := 0, y := 0, s := 0xFD,
                    p := 0x34, nmi := false },
           ram := List.replicate 0x0800 0,
           rom := sample_rom, micro := .boundary,
           ppuCycle := 0, ppuFrame := 0, raises := 0 } : Nes) = .ok
      ({ cpu := { pc := 0x8009, a := 0x0B, x := 0x0B, y := 0, s := 0xFD,
                    p := 0x34, nmi := false },
           ram := (List.replicate 0x0800 0).set 1 0x0B,
           rom := sample_rom, micro := .boundary,
           ppuCycle := 45, ppuFrame := 0, raises := 1 } : Nes) := by
    rw [show (15 : Nat) = 14 + 1 from rfl, runN_add 14 1, hC14,
        show (1 : Nat) = 0 + 1 from rfl]
    exact runN_cons hM15 (runN_zero _)
  rw [from_rom_sample]
  have e14 := runN_runState hC14
  have e15 := runN_runState hC15
  refine ⟨by rw [e15]; exact hC15, by rw [e15], by rw [e15], ?_,
          by rw [e15], by rw [e15], by rw [e14]; exact hC14, by rw [e14],
          ?_⟩
  · rw [e15]
    exact ramW_getD
  · intro k
    obtain ⟨m, hrm, hbm, hpm, hrmo, ham, hxm, hramm⟩ :=
      jmp_loop_iter k
        ({ cpu := { pc := 0x8009, a := 0x0B, x := 0x0B, y := 0, s := 0xFD,
                    p := 0x34, nmi := false },
           ram := (List.replicate 0x0800 0).set 1 0x0B,
           rom := sample_rom, micro := .boundary,
           ppuCycle := 45, ppuFrame := 0, raises := 1 } : Nes) rfl rfl rfl
    refine ⟨m, ?_, hpm, ham.trans rfl, hxm.trans rfl, ?_⟩
    · rw [runN_add 15 (3 * k), hC15]
      exact hrm
    · rw [hramm]
      exact ramW_getD

end PxNes
